import Mathlib

/-!
Verification of the chemlab structural data-model layer (`chemlab/core/system.py`).

The source file `system.py` defines the `Atom`, `Molecule` and `System` schemas
on top of a generic `ChemicalEntity` base (module `chemlab.core.base`, which is
not part of the sources at hand), plus the structural operations
`subsystem_from_molecules`, `subsystem_from_atoms` and `merge_systems`, and the
derived boundary bookkeeping `mol_indices` / `mol_n_atoms` computed from the
implicit atom-to-molecule owning map with numpy's `ediff1d` / `insert` /
`nonzero`.

The embedding below translates `system.py` directly; the parts that live in the
absent `base` module (zero-filled `empty` construction, `_from_entities`,
`subentity`, `sub_dimension`, validated attribute setters) are modelled from
the specification and marked as such in their doc strings.

Machine reals (coordinates, charges) are only ever moved around by this layer,
never computed with, so they are represented by exact carriers (`Int` triples
and `Int`), which preserves every equality the claims talk about.
-/

namespace Chemlab

/-- Coordinate triple: one row of a numpy `(n, 3)` float array.  The layer
under verification only stores, slices and concatenates coordinates, so an
exact carrier is used for the float entries. -/
abbrev V3 := Int × Int × Int

/-- Error kinds surfaced by the data-model layer (spec section 7 taxonomy,
restricted to the kinds the embedded operations can raise).  `attributeError`
models the Python `AttributeError` raised when attributes of `None` are
accessed. -/
inductive Err where
  | missingArgument (arg : String)
  | shapeMismatch
  | indexOutOfRange
  | attributeError
deriving DecidableEq, Repr

/-- Selection argument of `where` / `sub_dimension`: either an ordered list of
integer indices or a boolean mask (spec section 4.3). -/
inductive Sel where
  | idx (l : List Nat)
  | mask (m : List Bool)
deriving DecidableEq, Repr

/-- The `System` entity of `system.py`: its declared dimensions
(`molecule`, `atom`, `bond`), its four declared Attributes (`r_array`,
`type_array`, `charge_array`, `molecule_name`) and the implicit
atom-to-molecule owning map `maps['atom', 'molecule'].value` from which
`mol_indices` and `mol_n_atoms` are derived. -/
structure System where
  n_mol : Nat
  n_atoms : Nat
  n_bond : Nat
  r_array : List V3
  type_array : List String
  charge_array : List Int
  molecule_name : List String
  map : List Int
deriving DecidableEq, Repr

/-- The `Molecule` entity: per-atom attribute arrays, the `molecule_name`
field, and its `atom` / `bond` dimension sizes. -/
structure MoleculeE where
  r_array : List V3
  type_array : List String
  charge_array : List Int
  molecule_name : String
  n_atoms : Nat
  n_bond : Nat
deriving DecidableEq, Repr

/-- The `Atom` entity: its `r_array` / `type_array` / `charge_array` fields
and the size of its own `atom` dimension. -/
structure AtomE where
  r_array : List V3
  type_array : List String
  charge_array : List Int
  n_atom : Nat
deriving DecidableEq, Repr

/-- Decidable equality of `Except` results, used to evaluate the embedded
operations on concrete systems. -/
instance instDecEqExcept {ε α : Type} [DecidableEq ε] [DecidableEq α] :
    DecidableEq (Except ε α) := fun a b =>
  match a, b with
  | .error x, .error y =>
    if h : x = y then isTrue (by rw [h])
    else isFalse (fun hh => h ((Except.error.injEq _ _).mp hh))
  | .ok x, .ok y =>
    if h : x = y then isTrue (by rw [h])
    else isFalse (fun hh => h ((Except.ok.injEq _ _).mp hh))
  | .error _, .ok _ => isFalse (fun hh => Except.noConfusion hh)
  | .ok _, .error _ => isFalse (fun hh => Except.noConfusion hh)

/-! ### numpy primitives used by `system.py` -/

/-- numpy `ediff1d`: successive differences of a 1-d integer array. -/
def ediff1d : List Int → List Int
  | a :: b :: t => (b - a) :: ediff1d (b :: t)
  | _ => []

/-- numpy `nonzero` on a 1-d array: the (ascending) positions holding a
non-zero value, as integers. -/
def nonzero : List Int → List Int
  | [] => []
  | x :: t => if x = 0 then (nonzero t).map (· + 1) else 0 :: (nonzero t).map (· + 1)

/-- Translation of `sum([[i] * m for i, m in enumerate(sizes)], [])` starting
the enumeration at `i`: the concatenation of runs, the `j`-th run repeating
value `i + j` exactly `sizes[j]` times (a non-positive size yields an empty
run, as `[i] * m` does in Python). -/
def runs : Nat → List Int → List Int
  | _, [] => []
  | i, s :: rest => List.replicate s.toNat (i : Int) ++ runs (i + 1) rest

/-- Start offsets of a list of consecutive run sizes: `offsets [a, b, c] =
[0, a, a + b]`.  Used only in specifications and lemmas. -/
def offsets : List Int → List Int
  | [] => []
  | s :: rest => 0 :: (offsets rest).map (· + s)

/-- Positions of `true` entries of a boolean mask. -/
def trueIdxs : List Bool → List Nat
  | [] => []
  | b :: t => if b then 0 :: (trueIdxs t).map (· + 1) else (trueIdxs t).map (· + 1)

/-- Modelled from the spec: the element-extraction primitive of
`ChemicalEntity.subentity` / `sub_dimension` (module `base`, not in the
sources): from a per-element owning map and an aligned value array, keep the
values whose owning-map entry equals `v` (spec section 4.3: copy the slice of
elements whose owning-map value equals the index). -/
def selectByMap {α : Type} : List Int → List α → Int → List α
  | _, [], _ => []
  | [], _ :: _, _ => []
  | k :: m, x :: xs, v => if k = v then x :: selectByMap m xs v else selectByMap m xs v

/-- Number of entries of the owning map equal to molecule index `i`. -/
def selCount (m : List Int) (i : Nat) : Nat :=
  (m.filter (fun u => u == (i : Int))).length

/-! ### `System` operations from `system.py` (with the base-module parts
modelled from the spec) -/

/-- The `mol_indices` property (`system.py` lines 87-91): positions where the
owning map changes value, with a sentinel `1` inserted in front so position `0`
is always reported — in particular the result is `[0]`, never empty, when the
map is empty. -/
def molIndices (m : List Int) : List Int :=
  nonzero (1 :: ediff1d m)

/-- The `mol_n_atoms` property (`system.py` lines 93-97): successive
differences of `mol_indices` with the map length appended. -/
def molNAtoms (m : List Int) : List Int :=
  ediff1d (molIndices m ++ [(m.length : Int)])

/-- Modelled from the spec: `ChemicalEntity.empty` (module `base`, not in the
sources) allocates zero/default-filled storage for every declared Attribute,
sized by the given `molecule` / `atom` dimensions (spec section 4.3). -/
def System.empty (nm na : Nat) : System :=
  { n_mol := nm
  , n_atoms := na
  , n_bond := 0
  , r_array := List.replicate na (0, 0, 0)
  , type_array := List.replicate na ""
  , charge_array := List.replicate na 0
  , molecule_name := List.replicate nm ""
  , map := List.replicate na 0 }

/-- Modelled from the spec: validated attribute setter for `r_array`
(spec sections 4.3 and 7: assignment re-validates the value's leading-axis
length against the live dimension size and fails with `ShapeMismatch`). -/
def setRArray (s : System) (v : List V3) : Except Err System :=
  if v.length = s.n_atoms then .ok { s with r_array := v } else .error .shapeMismatch

/-- Modelled from the spec: validated attribute setter for `type_array`. -/
def setTypeArray (s : System) (v : List String) : Except Err System :=
  if v.length = s.n_atoms then .ok { s with type_array := v } else .error .shapeMismatch

/-- Modelled from the spec: validated attribute setter for `charge_array`. -/
def setChargeArray (s : System) (v : List Int) : Except Err System :=
  if v.length = s.n_atoms then .ok { s with charge_array := v } else .error .shapeMismatch

/-- Modelled from the spec: validated attribute setter for `molecule_name`
(indexed by the `molecule` dimension). -/
def setMoleculeName (s : System) (v : List String) : Except Err System :=
  if v.length = s.n_mol then .ok { s with molecule_name := v } else .error .shapeMismatch

/-- Keyword arguments of `System.from_arrays`: the two required arrays plus
the optional ones the embedded layer stores (`m_array`, export arrays and the
`bond` machinery are outside the four declared Attributes and not modelled). -/
structure Kwargs where
  mol_indices : Option (List Int)
  type_array : Option (List String)
  r_array : Option (List V3)
  charge_array : Option (List Int)
  molecule_name : Option (List String)
deriving DecidableEq, Repr

/-- Assignment of an optional keyword argument: absent keywords are simply
not assigned, present ones go through the validated setter. -/
def optSet {β : Type} (set : System → β → Except Err System)
    (o : Option β) (s : System) : Except Err System :=
  match o with
  | none => .ok s
  | some v => set s v

/-- `System.from_arrays` (`system.py` lines 107-159): requires `mol_indices`
and `type_array`, allocates via `empty(len(mol_indices), len(type_array))`,
builds the atom-to-molecule map from the successive differences of
`mol_indices` with the atom count appended (`sum([[i] * m for i, m in
enumerate(mol_sizes)], [])`), then assigns every remaining supplied array
through the validated setters.  The `(bond, molecule)` map set up on line 153
touches no declared Attribute and is not modelled. -/
def fromArrays (k : Kwargs) : Except Err System :=
  match k.mol_indices with
  | none => .error (.missingArgument "mol_indices")
  | some mi =>
    match k.type_array with
    | none => .error (.missingArgument "type_array")
    | some ts =>
      let inst := { System.empty mi.length ts.length with
        map := runs 0 (ediff1d (mi ++ [(ts.length : Int)])) }
      (setTypeArray inst ts).bind (fun i1 =>
        (optSet setRArray k.r_array i1).bind (fun i2 =>
          (optSet setChargeArray k.charge_array i2).bind (fun i3 =>
            optSet setMoleculeName k.molecule_name i3)))

/-- Modelled from the spec: `ChemicalEntity._from_entities(molecules,
'molecule')` (module `base`, not in the sources; spec section 4.3): set the
dimension sizes to the sums over the sub-entities, store for every declared
Attribute the ordered concatenation of the sub-entities' values, and build the
owning map recording for each atom the index of its parent molecule. -/
def fromEntities (ms : List MoleculeE) : System :=
  { n_mol := ms.length
  , n_atoms := (ms.map (fun m => m.n_atoms)).sum
  , n_bond := (ms.map (fun m => m.n_bond)).sum
  , r_array := (ms.map (fun m => m.r_array)).flatten
  , type_array := (ms.map (fun m => m.type_array)).flatten
  , charge_array := (ms.map (fun m => m.charge_array)).flatten
  , molecule_name := ms.map (fun m => m.molecule_name)
  , map := runs 0 (ms.map (fun m => (m.n_atoms : Int))) }

/-- `System.__init__` (`system.py` lines 60-70): replace a `None` molecule
list by `[]`, set the three dimension sizes from the molecule list, and invoke
`_from_entities` only when the list is non-empty. -/
def systemInit (molecules : Option (List MoleculeE)) : System :=
  let ms := molecules.getD []
  if ms.isEmpty then
    { n_mol := ms.length
    , n_atoms := (ms.map (fun m => m.n_atoms)).sum
    , n_bond := (ms.map (fun m => m.n_bond)).sum
    , r_array := []
    , type_array := []
    , charge_array := []
    , molecule_name := []
    , map := [] }
  else fromEntities ms

/-- Modelled from the spec: `System.get_molecule(index)` delegates to
`ChemicalEntity.subentity(Molecule, index)` (module `base`, not in the
sources; spec section 4.3): copy, for every Attribute, the slice of elements
whose owning-map value equals `index`, and the molecule-level values at
position `index`. -/
def getMolecule (s : System) (i : Nat) : MoleculeE :=
  { r_array := selectByMap s.map s.r_array (i : Int)
  , type_array := selectByMap s.map s.type_array (i : Int)
  , charge_array := selectByMap s.map s.charge_array (i : Int)
  , molecule_name := s.molecule_name.getD i ""
  , n_atoms := selCount s.map i
  , n_bond := 0 }

/-- Modelled from the spec: `ChemicalEntity.sub_dimension(selection,
'molecule')` (module `base`, not in the sources; spec section 4.3): keep only
the selected molecules, transitively restrict the atom-level Attributes to the
selected molecules' atoms, and re-index the owning map to the compacted
numbering.  Bond data is not modelled; the spec's `IndexError` on
out-of-range indices is not modelled (no claim exercises it). -/
def subDimensionMol (s : System) (sel : Sel) : System :=
  let chosen : List Nat := match sel with | .idx l => l | .mask m => trueIdxs m
  { n_mol := chosen.length
  , n_atoms := (chosen.map (selCount s.map)).sum
  , n_bond := 0
  , r_array := (chosen.map (fun i : Nat => selectByMap s.map s.r_array (i : Int))).flatten
  , type_array := (chosen.map (fun i : Nat => selectByMap s.map s.type_array (i : Int))).flatten
  , charge_array := (chosen.map (fun i : Nat => selectByMap s.map s.charge_array (i : Int))).flatten
  , molecule_name := chosen.map (fun i => s.molecule_name.getD i "")
  , map := runs 0 (chosen.map (fun i => (selCount s.map i : Int))) }

/-- `System.where` (`system.py` lines 167-172): scan the keyword arguments in
order and return `sub_dimension(arg, 'molecule')` for the first keyword named
`molecule_index`; any call without such a keyword falls off the loop and
returns `None`. -/
def whereSys (s : System) (kwargs : List (String × Sel)) : Option System :=
  match kwargs.find? (fun kv => kv.1 == "molecule_index") with
  | some kv => some (subDimensionMol s kv.2)
  | none => none

/-- `subsystem_from_molecules` (`system.py` lines 210-245): forwards to
`where(molecule_index=selection)`. -/
def subsystemFromMolecules (orig : System) (selection : Sel) : Option System :=
  whereSys orig [("molecule_index", selection)]

/-- `subsystem_from_atoms` (`system.py` lines 248-276): forwards to
`where(atom_index=selection)` — a keyword `where` has no branch for. -/
def subsystemFromAtoms (orig : System) (selection : Sel) : Option System :=
  whereSys orig [("atom_index", selection)]

/-- Tail of `merge_systems` (`system.py` lines 313-328), after any overlap
trimming: allocate `empty(sysa.n_mol + sysb.n_mol, sysa.n_atoms +
sysb.n_atoms)`, assign each declared Attribute the concatenation of the two
inputs' values (spec section 4.2 `Attribute.assign` validates the length, all
failures being `ShapeMismatch`, so the four checks are combined), read
`mol_indices[-1]` and `mol_n_atoms[-1]` of `sysa` to form the atom offset, and
write the boundary bookkeeping — `mol_indices` slots and `mol_n_atoms = concat`
— into the result.  On the owning-map representation the two boundary writes
amount to rebuilding the map as the runs of the concatenated `mol_n_atoms`
(the offset is carried implicitly by the run lengths of `sysa`); the
spec-modelled validated write fails with `ShapeMismatch` when the number of
written boundary entries differs from the result's molecule count. -/
def mergeTail (sysa sysb : System) : Except Err System :=
  let res := System.empty (sysa.n_mol + sysb.n_mol) (sysa.n_atoms + sysb.n_atoms)
  if (sysa.r_array ++ sysb.r_array).length = res.n_atoms ∧
     (sysa.type_array ++ sysb.type_array).length = res.n_atoms ∧
     (sysa.charge_array ++ sysb.charge_array).length = res.n_atoms ∧
     (sysa.molecule_name ++ sysb.molecule_name).length = res.n_mol then
    let res1 := { res with
      r_array := sysa.r_array ++ sysb.r_array
      type_array := sysa.type_array ++ sysb.type_array
      charge_array := sysa.charge_array ++ sysb.charge_array
      molecule_name := sysa.molecule_name ++ sysb.molecule_name }
    match (molIndices sysa.map).getLast?, (molNAtoms sysa.map).getLast? with
    | some _last_index, some _last_size =>
      let sizes := molNAtoms sysa.map ++ molNAtoms sysb.map
      if sizes.length = sysa.n_mol + sysb.n_mol then
        .ok { res1 with map := runs 0 sizes }
      else .error .shapeMismatch
    | _, _ => .error .indexOutOfRange
  else .error .shapeMismatch

/-- `merge_systems` (`system.py` lines 278-328).  When `bounding` is not
`False` it calls the external `overlapping_points` detector (here an opaque
function argument `ovl`), builds the boolean keep-mask over `sysa`'s atoms,
and rebuilds `sysa` through `subsystem_from_atoms` — which returns `None`, so
the subsequent attribute accesses on `sysa` raise (`attributeError`).  When
`bounding` is `False` the trimming is skipped entirely. -/
def mergeSystems (bounding : Bool) (ovl : List V3 → List V3 → List Nat)
    (sysa sysb : System) : Except Err System :=
  if bounding then
    let p := ovl sysb.r_array sysa.r_array
    let sel : List Bool := (List.range sysa.r_array.length).map (fun j => !(p.contains j))
    match subsystemFromAtoms sysa (Sel.mask sel) with
    | none => .error .attributeError
    | some sysa2 => mergeTail sysa2 sysb
  else mergeTail sysa sysb

/-- Modelled from the spec: `System.get_atom(i)` used by `AtomGenerator`
(defined in module `base`, not in the sources): extract the `i`-th element
along the `atom` dimension as a single-atom entity (spec sections 2 and 4.3:
generators are lazy index-based views producing sub-entities on demand). -/
def getAtom (s : System) (i : Int) : AtomE :=
  { r_array := [s.r_array.getD i.toNat (0, 0, 0)]
  , type_array := [s.type_array.getD i.toNat ""]
  , charge_array := [s.charge_array.getD i.toNat 0]
  , n_atom := 1 }

/-- A Python `slice` object: optional start, stop and step. -/
structure PySlice where
  start : Option Int
  stop : Option Int
  step : Option Int
deriving DecidableEq, Repr

/-- CPython `slice.indices(length)`: normalise start/stop/step against a
sequence length (clamping, negative-index wrapping, sign-dependent defaults);
a zero step raises `ValueError`, represented by `none`. -/
def sliceIndices (sl : PySlice) (length : Nat) : Option (Int × Int × Int) :=
  let n : Int := length
  let stepv := sl.step.getD 1
  if stepv = 0 then none
  else
    let lower : Int := if stepv < 0 then -1 else 0
    let upper : Int := if stepv < 0 then n - 1 else n
    let start := match sl.start with
      | none => if stepv < 0 then upper else lower
      | some v => if v < 0 then max (v + n) lower else min v upper
    let stop := match sl.stop with
      | none => if stepv < 0 then lower else upper
      | some v => if v < 0 then max (v + n) lower else min v upper
    some (start, stop, stepv)

/-- Number of elements of Python `range(start, stop, step)` (step non-zero). -/
def pyRangeLen (start stop step : Int) : Nat :=
  if 0 < step then (((stop - start) + step - 1) / step).toNat
  else (((start - stop) + (-step) - 1) / (-step)).toNat

/-- Python `range(start, stop, step)` as a list. -/
def pyRange (start stop step : Int) : List Int :=
  (List.range (pyRangeLen start stop step)).map (fun k => start + (k : Int) * step)

/-- `AtomGenerator.__getitem__` on a slice key (`system.py` lines 197-204):
`ind = range(*key.indices(self.system.n_mol))` — the bounds are normalised
against the molecule count — and the result is `[system.get_atom(i) for i in
ind]`.  A zero step propagates the `ValueError` from `slice.indices`. -/
def atomsSlice (s : System) (k : PySlice) : Option (List AtomE) :=
  (sliceIndices k s.n_mol).map (fun t => (pyRange t.1 t.2.1 t.2.2).map (fun i => getAtom s i))

/-- `Molecule.__init__` (`system.py` lines 33-40): assemble the per-atom
Attributes from the atom list via `_from_entities(atoms, 'atom')` (the
concatenation is modelled from spec section 4.3), leave the `molecule_name`
field at its default, and set the `bond` dimension from `bonds` (absent bonds
meaning zero). -/
def moleculeFromAtoms (atoms : List AtomE) (bonds : List (Int × Int)) : MoleculeE :=
  { r_array := (atoms.map (fun a => a.r_array)).flatten
  , type_array := (atoms.map (fun a => a.type_array)).flatten
  , charge_array := (atoms.map (fun a => a.charge_array)).flatten
  , molecule_name := ""
  , n_atoms := (atoms.map (fun a => a.n_atom)).sum
  , n_bond := bonds.length }

/-- `Atom.__init__` (`system.py` lines 12-15) with the base module's validated
setters modelled from the spec: the first assignment fixes the `atom`
dimension from `r_array`, the second re-validates `type_array` against it
(spec section 4.3), and the unassigned `charge_array` field stays
zero-filled. -/
def atomInit (type_arg : List String) (r_arg : List V3) : Except Err AtomE :=
  if type_arg.length = r_arg.length then
    .ok { r_array := r_arg
        , type_array := type_arg
        , charge_array := List.replicate r_arg.length 0
        , n_atom := r_arg.length }
  else .error .shapeMismatch

/-! ### Well-formedness predicates -/

/-- Dimension consistency of the declared Attributes of a `System` (spec
section 3 invariant: every Attribute indexed by dimension `d` has leading-axis
length `dimensions[d]`). -/
def attrsAligned (s : System) : Prop :=
  s.r_array.length = s.n_atoms ∧ s.type_array.length = s.n_atoms ∧
  s.charge_array.length = s.n_atoms ∧ s.molecule_name.length = s.n_mol

/-- Dimension consistency of a `Molecule`'s per-atom Attributes. -/
def molAligned (m : MoleculeE) : Prop :=
  m.r_array.length = m.n_atoms ∧ m.type_array.length = m.n_atoms ∧
  m.charge_array.length = m.n_atoms

/-- Dimension consistency of an `Atom`'s Fields. -/
def atomAligned (a : AtomE) : Prop :=
  a.r_array.length = a.n_atom ∧ a.type_array.length = a.n_atom ∧
  a.charge_array.length = a.n_atom

/-- Full well-formedness of a `System` whose molecules' atom counts are
`sizes`: aligned Attributes, and an owning map that is the contiguous runs of
`sizes` (spec section 3: atoms of the same molecule are contiguous and the
map is non-decreasing), every molecule owning at least one atom. -/
def SysWF (s : System) (sizes : List Nat) : Prop :=
  attrsAligned s ∧
  s.map = runs 0 (sizes.map (fun n : Nat => (n : Int))) ∧
  sizes.length = s.n_mol ∧
  sizes.sum = s.n_atoms ∧
  ∀ x ∈ sizes, 1 ≤ x

instance (s : System) : Decidable (attrsAligned s) := by
  unfold attrsAligned; infer_instance

instance (m : MoleculeE) : Decidable (molAligned m) := by
  unfold molAligned; infer_instance

instance (a : AtomE) : Decidable (atomAligned a) := by
  unfold atomAligned; infer_instance

instance (s : System) (sizes : List Nat) : Decidable (SysWF s sizes) := by
  unfold SysWF; infer_instance

/-! ### Concrete systems used by counterexamples and witnesses -/

/-- Water-like molecule number one of the two-molecule demo system: three
atoms around the origin. -/
def molW1 : MoleculeE :=
  { r_array := [(0, 0, 0), (1, 0, 0), (0, 1, 0)]
  , type_array := ["O", "H", "H"]
  , charge_array := [0, 0, 0]
  , molecule_name := "w1"
  , n_atoms := 3
  , n_bond := 0 }

/-- Water-like molecule number two: three atoms far from the first. -/
def molW2 : MoleculeE :=
  { r_array := [(100, 0, 0), (101, 0, 0), (100, 1, 0)]
  , type_array := ["O", "H", "H"]
  , charge_array := [0, 0, 0]
  , molecule_name := "w2"
  , n_atoms := 3
  , n_bond := 0 }

/-- A molecule placed exactly at the coordinates of `molW1`. -/
def molB1 : MoleculeE :=
  { r_array := [(0, 0, 0), (1, 0, 0), (0, 1, 0)]
  , type_array := ["O", "H", "H"]
  , charge_array := [0, 0, 0]
  , molecule_name := "b1"
  , n_atoms := 3
  , n_bond := 0 }

/-- Demo system `A`: two well-separated molecules of three atoms each. -/
def demoA : System := fromEntities [molW1, molW2]

/-- Demo system `B`: one molecule placed exactly at `A`'s first molecule. -/
def demoB : System := fromEntities [molB1]

/-- Demo system with a single one-atom molecule. -/
def demoC : System := fromEntities
  [{ r_array := [(7, 7, 7)], type_array := ["N"], charge_array := [1]
   , molecule_name := "c1", n_atoms := 1, n_bond := 0 }]

/-- The zero-molecule system produced by `System()`. -/
def emptySys : System := systemInit none

/-- A system whose second molecule owns zero atoms: dimensions say two
molecules, but the owning map only ever mentions molecule `0`. -/
def degenSys : System :=
  { n_mol := 2
  , n_atoms := 2
  , n_bond := 0
  , r_array := [(0, 0, 0), (1, 1, 1)]
  , type_array := ["C", "C"]
  , charge_array := [0, 0]
  , molecule_name := ["d1", "d2"]
  , map := [0, 0] }

/-! ### Lemmas about the numpy primitives -/

theorem ediff1d_cons (a b : Int) (t : List Int) :
    ediff1d (a :: b :: t) = (b - a) :: ediff1d (b :: t) := rfl

theorem ediff1d_map_add (c : Int) : ∀ l : List Int, ediff1d (l.map (· + c)) = ediff1d l
  | [] => rfl
  | [_] => rfl
  | x :: y :: t => by
    simp only [List.map_cons, ediff1d_cons]
    rw [show y + c - (x + c) = y - x by ring]
    have := ediff1d_map_add c (y :: t)
    simp only [List.map_cons] at this
    rw [this]

theorem ediff1d_replicate_append (k : Int) (l : List Int) :
    ∀ s : Nat, ediff1d (List.replicate (s + 1) k ++ l) = List.replicate s 0 ++ ediff1d (k :: l)
  | 0 => by simp
  | s + 1 => by
    rw [List.replicate_succ k (s + 1), List.cons_append, List.replicate_succ k s,
      List.cons_append, ediff1d_cons, sub_self, ← List.cons_append,
      ← List.replicate_succ, ediff1d_replicate_append k l s, List.replicate_succ,
      List.cons_append]

theorem ediff1d_sum (a : Int) : ∀ t : List Int, (ediff1d (a :: t)).sum = t.getLastD a - a
  | [] => by simp [ediff1d]
  | b :: t => by
    rw [ediff1d_cons, List.sum_cons, ediff1d_sum b t, List.getLastD_cons]
    ring

theorem nonzero_cons_of_ne (x : Int) (l : List Int) (h : x ≠ 0) :
    nonzero (x :: l) = 0 :: (nonzero l).map (· + 1) := by
  simp [nonzero, h]

theorem nonzero_replicate_zero (l : List Int) :
    ∀ m : Nat, nonzero (List.replicate m 0 ++ l) = (nonzero l).map (· + (m : Int))
  | 0 => by simp
  | m + 1 => by
    rw [List.replicate_succ, List.cons_append,
      show nonzero (0 :: (List.replicate m 0 ++ l)) =
        (nonzero (List.replicate m 0 ++ l)).map (· + 1) from by simp [nonzero],
      nonzero_replicate_zero l m, List.map_map]
    have hf : ((· + (1 : Int)) ∘ (· + (m : Int))) = (· + ((m + 1 : Nat) : Int)) := by
      funext x
      simp only [Function.comp_apply]
      push_cast
      ring
    rw [hf]

theorem runs_mem_le : ∀ (sizes : List Int) (i : Nat) (v : Int),
    v ∈ runs i sizes → (i : Int) ≤ v
  | [], _, _, h => by simp [runs] at h
  | s :: rest, i, v, h => by
    simp only [runs, List.mem_append] at h
    rcases h with h | h
    · rcases List.eq_of_mem_replicate h with rfl
      exact le_refl _
    · have h1 := runs_mem_le rest (i + 1) v h
      have h2 : ((i : Int) + 1) ≤ v := by push_cast at h1 ⊢; omega
      omega

theorem runs_length : ∀ (sizes : List Int) (i : Nat),
    (runs i sizes).length = (sizes.map Int.toNat).sum
  | [], _ => rfl
  | s :: rest, i => by
    simp [runs, runs_length rest (i + 1)]

theorem sum_toNat_cast : ∀ sizes : List Int, (∀ s ∈ sizes, 0 ≤ s) →
    (((sizes.map Int.toNat).sum : Nat) : Int) = sizes.sum
  | [], _ => rfl
  | s :: rest, h => by
    simp only [List.map_cons, List.sum_cons, Nat.cast_add]
    rw [Int.toNat_of_nonneg (h s (by simp)), sum_toNat_cast rest (fun x hx => h x (by simp [hx]))]

theorem offsets_ediff1d : ∀ (t : List Int) (a : Int),
    offsets (ediff1d (a :: t)) = (a :: t).dropLast.map (· - a)
  | [], a => by simp [ediff1d, offsets]
  | b :: t, a => by
    rw [ediff1d_cons, offsets, offsets_ediff1d t b, List.map_map, List.dropLast_cons₂,
      List.map_cons, sub_self]
    have hf : ((· + (b - a)) ∘ (· - b)) = (· - a) := by
      funext x
      simp only [Function.comp_apply]
      ring
    rw [hf]

theorem ediff1d_offsets : ∀ sizes : List Int,
    ediff1d (offsets sizes ++ [sizes.sum]) = sizes
  | [] => by simp [offsets, ediff1d]
  | m :: ms => by
    have hh : ∃ tl, offsets ms ++ [ms.sum] = (0 : Int) :: tl := by
      cases ms with
      | nil => exact ⟨[], by simp [offsets]⟩
      | cons x xs => exact ⟨(offsets xs).map (· + x) ++ [(x :: xs).sum], by simp [offsets]⟩
    obtain ⟨tl, htl⟩ := hh
    have h1 : offsets (m :: ms) ++ [(m :: ms).sum] =
        0 :: ((offsets ms ++ [ms.sum]).map (· + m)) := by
      simp [offsets, add_comm]
    rw [h1, htl, List.map_cons, zero_add, ediff1d_cons, sub_zero,
      show (m :: tl.map (· + m)) = ((0 : Int) :: tl).map (· + m) from by simp,
      ← htl, ediff1d_map_add, ediff1d_offsets ms]

theorem molIndices_runs : ∀ (rest : List Int) (s : Int) (i : Nat),
    1 ≤ s → (∀ x ∈ rest, 1 ≤ x) → molIndices (runs i (s :: rest)) = offsets (s :: rest)
  | [], s, i, hs, _ => by
    obtain ⟨m, hm⟩ : ∃ m, s.toNat = m + 1 := ⟨s.toNat - 1, by omega⟩
    have h1 : runs i [s] = List.replicate (m + 1) (i : Int) ++ ([] : List Int) := by
      simp [runs, hm]
    rw [molIndices, h1, ediff1d_replicate_append, nonzero_cons_of_ne _ _ one_ne_zero,
      show ediff1d [(i : Int)] = [] from rfl, nonzero_replicate_zero]
    simp [nonzero, offsets]
  | s' :: rest', s, i, hs, hrest => by
    have hs' : 1 ≤ s' := hrest s' (by simp)
    obtain ⟨m, hm⟩ : ∃ m, s.toNat = m + 1 := ⟨s.toNat - 1, by omega⟩
    obtain ⟨m', hm'⟩ : ∃ m', s'.toNat = m' + 1 := ⟨s'.toNat - 1, by omega⟩
    have hR : runs (i + 1) (s' :: rest') =
        ((i + 1 : Nat) : Int) :: (List.replicate m' ((i + 1 : Nat) : Int) ++ runs (i + 2) rest') := by
      rw [runs, hm', List.replicate_succ, List.cons_append]
    have hEd : ediff1d ((i : Int) :: runs (i + 1) (s' :: rest')) =
        1 :: ediff1d (runs (i + 1) (s' :: rest')) := by
      rw [hR, ediff1d_cons, show ((i + 1 : Nat) : Int) - (i : Nat) = 1 from by push_cast; ring,
        ← hR]
    have hrun : runs i (s :: s' :: rest') =
        List.replicate (m + 1) (i : Int) ++ runs (i + 1) (s' :: rest') := by
      rw [runs, hm]
    rw [molIndices, hrun, ediff1d_replicate_append, hEd,
      nonzero_cons_of_ne _ _ one_ne_zero, nonzero_replicate_zero]
    have hmi := molIndices_runs rest' s' (i + 1) hs' (fun x hx => hrest x (by simp [hx]))
    rw [molIndices] at hmi
    rw [hmi, List.map_map]
    have hf : ((· + (1 : Int)) ∘ (· + (m : Int))) = (· + s) := by
      funext x
      simp only [Function.comp_apply]
      have hs2 : ((s.toNat : Nat) : Int) = s := Int.toNat_of_nonneg (by omega)
      rw [hm] at hs2
      push_cast at hs2
      omega
    rw [hf]
    simp [offsets]

theorem molNAtoms_runs (s : Int) (rest : List Int) (h : ∀ x ∈ s :: rest, 1 ≤ x) :
    molNAtoms (runs 0 (s :: rest)) = s :: rest := by
  rw [molNAtoms, molIndices_runs rest s 0 (h s (by simp)) (fun x hx => h x (by simp [hx]))]
  have hlen : (((runs 0 (s :: rest)).length : Nat) : Int) = (s :: rest).sum := by
    rw [runs_length]
    exact sum_toNat_cast _ (fun x hx => le_trans zero_le_one (h x hx))
  rw [hlen]
  exact ediff1d_offsets (s :: rest)

/-! ### Lemmas about owning-map extraction -/

theorem selectByMap_block {α : Type} (k : Int) :
    ∀ (b : List α) (m : List Int) (xs : List α),
    selectByMap (List.replicate b.length k ++ m) (b ++ xs) k = b ++ selectByMap m xs k := by
  intro b
  induction b with
  | nil => intro m xs; simp
  | cons x b ih =>
    intro m xs
    simp only [List.length_cons, List.replicate_succ, List.cons_append]
    show selectByMap (k :: (List.replicate b.length k ++ m)) (x :: (b ++ xs)) k = _
    rw [selectByMap, if_pos rfl, ih]

theorem selectByMap_block_ne {α : Type} (k v : Int) (hkv : k ≠ v) :
    ∀ (b : List α) (m : List Int) (xs : List α),
    selectByMap (List.replicate b.length k ++ m) (b ++ xs) v = selectByMap m xs v := by
  intro b
  induction b with
  | nil => intro m xs; simp
  | cons x b ih =>
    intro m xs
    simp only [List.length_cons, List.replicate_succ, List.cons_append]
    show selectByMap (k :: (List.replicate b.length k ++ m)) (x :: (b ++ xs)) v = _
    rw [selectByMap, if_neg hkv, ih]

theorem selectByMap_nil_of_ne (v : Int) :
    ∀ (m : List Int) {α : Type} (xs : List α), (∀ u ∈ m, u ≠ v) → selectByMap m xs v = []
  | [], _, [], _ => rfl
  | [], _, _ :: _, _ => rfl
  | _ :: _, _, [], _ => rfl
  | k :: m, _, x :: xs, h => by
    rw [selectByMap, if_neg (h k (by simp))]
    exact selectByMap_nil_of_ne v m xs (fun u hu => h u (by simp [hu]))

theorem selectByMap_length {α : Type} (v : Int) :
    ∀ (m : List Int) (xs : List α), m.length = xs.length →
    (selectByMap m xs v).length = (m.filter (fun u => u == v)).length
  | [], [], _ => rfl
  | [], _ :: _, h => by simp at h
  | _ :: _, [], h => by simp at h
  | k :: m, x :: xs, h => by
    have ih := selectByMap_length v m xs (by simpa using h)
    by_cases hk : k = v
    · subst hk
      rw [selectByMap, if_pos rfl]
      simp [List.filter, ih]
    · rw [selectByMap, if_neg hk]
      simp only [List.filter_cons]
      rw [if_neg (by simpa using hk)]
      exact ih

theorem selectByMap_runs_flatten {α γ : Type} (f : γ → List α) (g : γ → Nat) :
    ∀ (ms : List γ) (k i : Nat) (_hlen : ∀ x ∈ ms, (f x).length = g x)
      (hi : i < ms.length),
    selectByMap (runs k (ms.map fun x => ((g x : Nat) : Int))) ((ms.map f).flatten)
      ((k + i : Nat) : Int) = f (ms.get ⟨i, hi⟩) := by
  intro ms
  induction ms with
  | nil => intro k i _ hi; simp at hi
  | cons m rest ih =>
    intro k i hlen hi
    have hsz : ((g m : Nat) : Int).toNat = g m := Int.toNat_natCast _
    have hfm : (f m).length = g m := hlen m (by simp)
    have hruns : runs k ((m :: rest).map fun x => ((g x : Nat) : Int)) =
        List.replicate (f m).length (k : Int) ++
          runs (k + 1) (rest.map fun x => ((g x : Nat) : Int)) := by
      simp only [List.map_cons, runs, hsz, hfm]
    have hflat : ((m :: rest).map f).flatten = f m ++ (rest.map f).flatten := by
      simp
    cases i with
    | zero =>
      rw [hruns, hflat, show ((k + 0 : Nat) : Int) = (k : Int) by simp,
        selectByMap_block, selectByMap_nil_of_ne]
      · simp
      · intro u hu
        have := runs_mem_le _ (k + 1) u hu
        push_cast at this ⊢
        omega
    | succ j =>
      have hkj : (k : Int) ≠ ((k + (j + 1) : Nat) : Int) := by push_cast; omega
      rw [hruns, hflat, selectByMap_block_ne _ _ hkj,
        show ((k + (j + 1) : Nat) : Int) = (((k + 1) + j : Nat) : Int) by push_cast; ring,
        ih (k + 1) j (fun x hx => hlen x (by simp [hx])) (by simpa using hi)]
      simp

theorem getD_map_of_lt {α β : Type} (f : α → β) (d : β) :
    ∀ (l : List α) (i : Nat) (hi : i < l.length), (l.map f).getD i d = f (l.get ⟨i, hi⟩)
  | [], i, hi => by simp at hi
  | x :: l, 0, _ => rfl
  | x :: l, i + 1, hi => by
    simp only [List.map_cons, List.getD, List.get_cons_succ]
    exact getD_map_of_lt f d l i (by simpa using hi)

theorem flatten_map_length {γ α : Type} (f : γ → List α) (g : γ → Nat) (ms : List γ)
    (h : ∀ x ∈ ms, (f x).length = g x) :
    ((ms.map f).flatten).length = (ms.map g).sum := by
  rw [List.length_flatten, List.map_map]
  exact congrArg List.sum (List.map_congr_left (fun a ha => h a ha))

/-! ### Helper lemmas about the operations -/

theorem whereSys_none (s : System) (kwargs : List (String × Sel))
    (h : ∀ kv ∈ kwargs, kv.1 ≠ "molecule_index") : whereSys s kwargs = none := by
  have hf : kwargs.find? (fun kv => kv.1 == "molecule_index") = none :=
    List.find?_eq_none.mpr (fun x hx => by simpa using h x hx)
  rw [whereSys, hf]

theorem subsystemFromAtoms_none (s : System) (sel : Sel) :
    subsystemFromAtoms s sel = none := by
  rw [subsystemFromAtoms]
  exact whereSys_none s _ (by
    intro kv hkv
    simp only [List.mem_singleton] at hkv
    subst hkv
    show "atom_index" ≠ "molecule_index"
    decide)

theorem setRArray_ok {s : System} {v : List V3} {s' : System}
    (h : setRArray s v = .ok s') : s' = { s with r_array := v } ∧ v.length = s.n_atoms := by
  rw [setRArray] at h
  split at h
  · exact ⟨(Except.ok.injEq _ _).mp h |>.symm, by assumption⟩
  · cases h

theorem setTypeArray_ok {s : System} {v : List String} {s' : System}
    (h : setTypeArray s v = .ok s') : s' = { s with type_array := v } ∧ v.length = s.n_atoms := by
  rw [setTypeArray] at h
  split at h
  · exact ⟨(Except.ok.injEq _ _).mp h |>.symm, by assumption⟩
  · cases h

theorem setChargeArray_ok {s : System} {v : List Int} {s' : System}
    (h : setChargeArray s v = .ok s') : s' = { s with charge_array := v } ∧ v.length = s.n_atoms := by
  rw [setChargeArray] at h
  split at h
  · exact ⟨(Except.ok.injEq _ _).mp h |>.symm, by assumption⟩
  · cases h

theorem setMoleculeName_ok {s : System} {v : List String} {s' : System}
    (h : setMoleculeName s v = .ok s') : s' = { s with molecule_name := v } ∧ v.length = s.n_mol := by
  rw [setMoleculeName] at h
  split at h
  · exact ⟨(Except.ok.injEq _ _).mp h |>.symm, by assumption⟩
  · cases h

theorem setRArray_error {s : System} {v : List V3} {e : Err}
    (h : setRArray s v = .error e) : e = .shapeMismatch := by
  rw [setRArray] at h
  split at h
  · cases h
  · exact ((Except.error.injEq _ _).mp h).symm

theorem setTypeArray_error {s : System} {v : List String} {e : Err}
    (h : setTypeArray s v = .error e) : e = .shapeMismatch := by
  rw [setTypeArray] at h
  split at h
  · cases h
  · exact ((Except.error.injEq _ _).mp h).symm

theorem setChargeArray_error {s : System} {v : List Int} {e : Err}
    (h : setChargeArray s v = .error e) : e = .shapeMismatch := by
  rw [setChargeArray] at h
  split at h
  · cases h
  · exact ((Except.error.injEq _ _).mp h).symm

theorem setMoleculeName_error {s : System} {v : List String} {e : Err}
    (h : setMoleculeName s v = .error e) : e = .shapeMismatch := by
  rw [setMoleculeName] at h
  split at h
  · cases h
  · exact ((Except.error.injEq _ _).mp h).symm

theorem except_bind_error {α : Type} {x : Except Err α} {f : α → Except Err α} {e : Err}
    (h : x.bind f = .error e) : x = .error e ∨ ∃ s, x = .ok s ∧ f s = .error e := by
  cases x with
  | error e' =>
    left
    have : e' = e := by simpa [Except.bind] using h
    rw [this]
  | ok s =>
    right
    exact ⟨s, rfl, by simpa [Except.bind] using h⟩

theorem except_bind_ok {α : Type} {x : Except Err α} {f : α → Except Err α} {s : α}
    (h : x.bind f = .ok s) : ∃ t, x = .ok t ∧ f t = .ok s := by
  cases x with
  | error e' => simp [Except.bind] at h
  | ok t => exact ⟨t, rfl, by simpa [Except.bind] using h⟩

theorem optSet_error {β : Type} {set : System → β → Except Err System}
    (hset : ∀ s v e, set s v = Except.error e → e = Err.shapeMismatch)
    {o : Option β} {s : System} {e : Err}
    (h : optSet set o s = .error e) : e = .shapeMismatch := by
  cases o with
  | none => simp [optSet] at h
  | some v => exact hset s v e h

theorem chain_ediff1d_pos : ∀ l : List Int, List.Chain' (· < ·) l → ∀ s ∈ ediff1d l, 1 ≤ s
  | [], _, s, hs => by simp [ediff1d] at hs
  | [_], _, s, hs => by simp [ediff1d] at hs
  | a :: b :: t, h, s, hs => by
    rw [List.chain'_cons] at h
    rw [ediff1d_cons] at hs
    rcases List.mem_cons.mp hs with rfl | hs
    · omega
    · exact chain_ediff1d_pos (b :: t) h.2 s hs

theorem wf_boundaries {m : List Int} {s0 : Nat} {rest : List Nat}
    (hm : m = runs 0 ((s0 :: rest).map (fun n : Nat => (n : Int))))
    (hpos : ∀ x ∈ s0 :: rest, 1 ≤ x) :
    molIndices m = offsets ((s0 :: rest).map (fun n : Nat => (n : Int))) ∧
    molNAtoms m = (s0 :: rest).map (fun n : Nat => (n : Int)) := by
  have hc : ((s0 :: rest).map (fun n : Nat => (n : Int))) =
      (s0 : Int) :: rest.map (fun n : Nat => (n : Int)) := by simp
  have h1 : 1 ≤ (s0 : Int) := by exact_mod_cast hpos s0 (by simp)
  have h2 : ∀ x ∈ rest.map (fun n : Nat => (n : Int)), 1 ≤ x := by
    intro x hx
    obtain ⟨n, hn, rfl⟩ := List.mem_map.mp hx
    exact_mod_cast hpos n (by simp [hn])
  constructor
  · rw [hm, hc, molIndices_runs _ _ 0 h1 h2, ← hc]
  · rw [hm, hc, molNAtoms_runs _ _ (by
      intro x hx
      rcases List.mem_cons.mp hx with rfl | hx
      · exact h1
      · exact h2 x hx), ← hc]

theorem empty_aligned (nm na : Nat) : attrsAligned (System.empty nm na) :=
  ⟨by simp [System.empty], by simp [System.empty], by simp [System.empty],
   by simp [System.empty]⟩

theorem setRArray_aligned {s : System} {v : List V3} {s' : System}
    (h : setRArray s v = .ok s') (ha : attrsAligned s) : attrsAligned s' := by
  obtain ⟨rfl, hlen⟩ := setRArray_ok h
  exact ⟨hlen, ha.2.1, ha.2.2.1, ha.2.2.2⟩

theorem setTypeArray_aligned {s : System} {v : List String} {s' : System}
    (h : setTypeArray s v = .ok s') (ha : attrsAligned s) : attrsAligned s' := by
  obtain ⟨rfl, hlen⟩ := setTypeArray_ok h
  exact ⟨ha.1, hlen, ha.2.2.1, ha.2.2.2⟩

theorem setChargeArray_aligned {s : System} {v : List Int} {s' : System}
    (h : setChargeArray s v = .ok s') (ha : attrsAligned s) : attrsAligned s' := by
  obtain ⟨rfl, hlen⟩ := setChargeArray_ok h
  exact ⟨ha.1, ha.2.1, hlen, ha.2.2.2⟩

theorem setMoleculeName_aligned {s : System} {v : List String} {s' : System}
    (h : setMoleculeName s v = .ok s') (ha : attrsAligned s) : attrsAligned s' := by
  obtain ⟨rfl, hlen⟩ := setMoleculeName_ok h
  exact ⟨ha.1, ha.2.1, ha.2.2.1, hlen⟩

theorem optSetR_aligned {o : Option (List V3)} {s s' : System}
    (h : optSet setRArray o s = .ok s') (ha : attrsAligned s) : attrsAligned s' := by
  cases o with
  | none =>
    obtain rfl : s = s' := by simpa [optSet] using h
    exact ha
  | some v => exact setRArray_aligned h ha

theorem optSetC_aligned {o : Option (List Int)} {s s' : System}
    (h : optSet setChargeArray o s = .ok s') (ha : attrsAligned s) : attrsAligned s' := by
  cases o with
  | none =>
    obtain rfl : s = s' := by simpa [optSet] using h
    exact ha
  | some v => exact setChargeArray_aligned h ha

theorem optSetN_aligned {o : Option (List String)} {s s' : System}
    (h : optSet setMoleculeName o s = .ok s') (ha : attrsAligned s) : attrsAligned s' := by
  cases o with
  | none =>
    obtain rfl : s = s' := by simpa [optSet] using h
    exact ha
  | some v => exact setMoleculeName_aligned h ha

theorem fromEntities_aligned (ms : List MoleculeE) (h : ∀ m ∈ ms, molAligned m) :
    attrsAligned (fromEntities ms) := by
  refine ⟨?_, ?_, ?_, by simp [fromEntities]⟩
  · show ((ms.map (fun m => m.r_array)).flatten).length = (ms.map (fun m => m.n_atoms)).sum
    exact flatten_map_length _ _ ms (fun x hx => (h x hx).1)
  · show ((ms.map (fun m => m.type_array)).flatten).length = (ms.map (fun m => m.n_atoms)).sum
    exact flatten_map_length _ _ ms (fun x hx => (h x hx).2.1)
  · show ((ms.map (fun m => m.charge_array)).flatten).length = (ms.map (fun m => m.n_atoms)).sum
    exact flatten_map_length _ _ ms (fun x hx => (h x hx).2.2)

/-! ### Claims -/

/-- Claim C9: `System()` constructed with `molecules=None` or with an empty
list yields an entity whose dimensions are exactly zero for `molecule`, `atom`
and `bond`, and `_from_entities` is not invoked in that case — the result is
the bare zero-dimension entity with untouched (empty) attribute storage. -/
theorem system_init_empty :
    systemInit none = { n_mol := 0, n_atoms := 0, n_bond := 0, r_array := []
                      , type_array := [], charge_array := [], molecule_name := [], map := [] } ∧
    systemInit (some []) = { n_mol := 0, n_atoms := 0, n_bond := 0, r_array := []
                           , type_array := [], charge_array := [], molecule_name := [], map := [] } :=
  ⟨rfl, rfl⟩

/-- Claim C3: `where(molecule_index=sel)` returns exactly
`sub_dimension(sel, 'molecule')`; a `where` call whose keywords do not include
`molecule_index` is a no-op yielding no subsystem (`None`); in particular
`subsystem_from_atoms`, which forwards to `where(atom_index=sel)`, never
returns a restricted system for any selection. -/
theorem where_dispatch :
    (∀ (s : System) (sel : Sel),
      whereSys s [("molecule_index", sel)] = some (subDimensionMol s sel)) ∧
    (∀ (s : System) (kwargs : List (String × Sel)),
      (∀ kv ∈ kwargs, kv.1 ≠ "molecule_index") → whereSys s kwargs = none) ∧
    (∀ (s : System) (sel : Sel), subsystemFromAtoms s sel = none) := by
  refine ⟨fun s sel => ?_, fun s kwargs h => whereSys_none s kwargs h,
    fun s sel => subsystemFromAtoms_none s sel⟩
  rw [whereSys]
  rfl

/-- Witness for C3 at concrete inputs: a `where` call with only an
`atom_index` keyword yields nothing, and the `molecule_index` call dispatches
to the molecule sub-selection. -/
theorem where_dispatch_witness :
    whereSys demoA [("atom_index", Sel.idx [0])] = none ∧
    whereSys demoA [("molecule_index", Sel.idx [0])] =
      some (subDimensionMol demoA (Sel.idx [0])) :=
  ⟨where_dispatch.2.1 demoA [("atom_index", Sel.idx [0])] (by decide),
   where_dispatch.1 demoA (Sel.idx [0])⟩

/-- Claim C2: the code path the claim describes is defective.  With
`bounding=0.2` (any non-`False` bounding) `merge_systems` rebuilds `sysa`
through `subsystem_from_atoms`, which forwards to the unimplemented
`where(atom_index=...)` branch and returns `None`; the subsequent attribute
accesses on `None` raise, for every possible overlap-detector result — so on
the claim's two-molecule `A` and overlapping one-molecule `B` the call fails
instead of returning the documented two-molecule system. -/
theorem merge_bounded_crashes (ovl : List V3 → List V3 → List Nat) :
    mergeSystems true ovl demoA demoB = .error .attributeError := by
  rw [mergeSystems]
  simp only [if_pos]
  rw [subsystemFromAtoms_none]

/-- Claim C10: the lazy atom view on a slice key enumerates
`range(*k.indices(n_mol))` — the slice bounds are normalised against the
molecule count, not the atom count — and maps `get_atom` over those indices.
On the two-molecule, six-atom demo system the full slice therefore yields two
entries, differing from what normalising against the atom count would give. -/
theorem atoms_slice_uses_n_mol :
    (∀ (s : System) (k : PySlice),
      atomsSlice s k = (sliceIndices k s.n_mol).map
        (fun t => (pyRange t.1 t.2.1 t.2.2).map (fun i => getAtom s i))) ∧
    atomsSlice demoA { start := none, stop := none, step := none } ≠
      (sliceIndices { start := none, stop := none, step := none } demoA.n_atoms).map
        (fun t => (pyRange t.1 t.2.1 t.2.2).map (fun i => getAtom demoA i)) :=
  ⟨fun _ _ => rfl, by decide⟩

/-- Claim C7: `from_arrays` fails with a missing-argument error whenever the
`mol_indices` or the `type_array` keyword is absent, and never raises that
error when both are supplied (what can still fail then is setter shape
validation, a different error). -/
theorem from_arrays_required_args (k : Kwargs) :
    ((k.mol_indices = none ∨ k.type_array = none) →
      ∃ a, fromArrays k = .error (.missingArgument a)) ∧
    (k.mol_indices ≠ none → k.type_array ≠ none →
      ∀ a, fromArrays k ≠ .error (.missingArgument a)) := by
  constructor
  · intro h
    rcases h with h | h
    · exact ⟨"mol_indices", by rw [fromArrays, h]⟩
    · cases hm : k.mol_indices with
      | none => exact ⟨"mol_indices", by rw [fromArrays, hm]⟩
      | some mi => exact ⟨"type_array", by rw [fromArrays, hm, h]⟩
  · intro hmi hts a h
    cases hm : k.mol_indices with
    | none => exact hmi hm
    | some mi =>
      cases ht : k.type_array with
      | none => exact hts ht
      | some ts =>
        rw [fromArrays, hm, ht] at h
        dsimp only at h
        rcases except_bind_error h with h1 | ⟨s1, _, h1⟩
        · simpa using setTypeArray_error h1
        · rcases except_bind_error h1 with h2 | ⟨s2, _, h2⟩
          · simpa using optSet_error (fun _ _ _ hh => setRArray_error hh) h2
          · rcases except_bind_error h2 with h3 | ⟨s3, _, h3⟩
            · simpa using optSet_error (fun _ _ _ hh => setChargeArray_error hh) h3
            · simpa using optSet_error (fun _ _ _ hh => setMoleculeName_error hh) h3

/-- Witness for C7: a call without `mol_indices` raises the missing-argument
error, a call with both required arrays raises no such error. -/
theorem from_arrays_required_args_witness :
    (∃ a, fromArrays { mol_indices := none, type_array := some ["H"], r_array := none
                     , charge_array := none, molecule_name := none } =
      .error (.missingArgument a)) ∧
    ∀ a, fromArrays { mol_indices := some [0], type_array := some ["H"], r_array := none
                    , charge_array := none, molecule_name := none } ≠
      .error (.missingArgument a) :=
  ⟨(from_arrays_required_args _).1 (Or.inl rfl),
   (from_arrays_required_args _).2 (by simp) (by simp)⟩

/-- Claim C4: for a system built via `from_arrays` with ascending molecule
start offsets (starting at `0`, each below the atom count), the derived
`mol_n_atoms` is the successive differences of `mol_indices` with the last
molecule taking the remaining atoms, and the derived `mol_indices` property
reproduces the given start offsets. -/
theorem from_arrays_boundaries (mi : List Int) (ts : List String)
    (h0 : mi.head? = some 0)
    (hchain : List.Chain' (· < ·) (mi ++ [(ts.length : Int)])) :
    ∃ s, fromArrays { mol_indices := some mi, type_array := some ts, r_array := none
                    , charge_array := none, molecule_name := none } = .ok s ∧
      molIndices s.map = mi ∧
      molNAtoms s.map = ediff1d (mi ++ [(ts.length : Int)]) := by
  obtain ⟨mi0, rfl⟩ : ∃ rest, mi = 0 :: rest := by
    cases mi with
    | nil => simp at h0
    | cons a rest =>
      simp only [List.head?_cons, Option.some.injEq] at h0
      exact ⟨rest, by rw [h0]⟩
  have hpos : ∀ x ∈ ediff1d ((0 :: mi0) ++ [(ts.length : Int)]), 1 ≤ x :=
    chain_ediff1d_pos _ hchain
  obtain ⟨y, t, hyt⟩ : ∃ y t, mi0 ++ [(ts.length : Int)] = y :: t := by
    cases h : mi0 ++ [(ts.length : Int)] with
    | nil => exact absurd h (by simp)
    | cons y t => exact ⟨y, t, rfl⟩
  have hed : ediff1d ((0 :: mi0) ++ [(ts.length : Int)]) = (y - 0) :: ediff1d (y :: t) := by
    rw [List.cons_append, hyt, ediff1d_cons]
  have hMI : molIndices (runs 0 (ediff1d ((0 :: mi0) ++ [(ts.length : Int)]))) = 0 :: mi0 := by
    rw [hed, molIndices_runs _ _ 0 (hpos _ (by rw [hed]; exact List.mem_cons_self _ _))
      (fun x hx => hpos x (by rw [hed]; exact List.mem_cons_of_mem _ hx)), ← hed,
      List.cons_append, offsets_ediff1d,
      show ((0 : Int) :: (mi0 ++ [(ts.length : Int)])) = ((0 :: mi0) ++ [(ts.length : Int)])
        from by simp, List.dropLast_concat]
    simp
  have hMN : molNAtoms (runs 0 (ediff1d ((0 :: mi0) ++ [(ts.length : Int)]))) =
      ediff1d ((0 :: mi0) ++ [(ts.length : Int)]) := by
    rw [hed]
    exact molNAtoms_runs _ _ (by rw [← hed]; exact hpos)
  refine ⟨{ System.empty (0 :: mi0).length ts.length with
            map := runs 0 (ediff1d ((0 :: mi0) ++ [(ts.length : Int)]))
          , type_array := ts }, ?_, hMI, hMN⟩
  have hset : setTypeArray
      { System.empty (0 :: mi0).length ts.length with
        map := runs 0 (ediff1d ((0 :: mi0) ++ [(ts.length : Int)])) } ts =
      .ok { System.empty (0 :: mi0).length ts.length with
            map := runs 0 (ediff1d ((0 :: mi0) ++ [(ts.length : Int)]))
          , type_array := ts } := by
    rw [setTypeArray]
    exact if_pos rfl
  rw [fromArrays]
  dsimp only
  rw [hset]
  rfl

/-- Witness for C4: the two boundary examples of the spec, `mol_indices =
[0, 3, 6]` with 9 atoms giving `mol_n_atoms = [3, 3, 3]`, and `[0, 2, 5]`
with 7 atoms giving `[2, 3, 2]`. -/
theorem from_arrays_boundaries_witness :
    (∃ s, fromArrays { mol_indices := some [0, 3, 6]
                     , type_array := some ["O", "H", "H", "O", "H", "H", "O", "H", "H"]
                     , r_array := none, charge_array := none, molecule_name := none } = .ok s ∧
      molIndices s.map = [0, 3, 6] ∧ molNAtoms s.map = [3, 3, 3]) ∧
    (∃ s, fromArrays { mol_indices := some [0, 2, 5]
                     , type_array := some ["a", "b", "c", "d", "e", "f", "g"]
                     , r_array := none, charge_array := none, molecule_name := none } = .ok s ∧
      molIndices s.map = [0, 2, 5] ∧ molNAtoms s.map = [2, 3, 2]) := by
  constructor
  · obtain ⟨s, h1, h2, h3⟩ := from_arrays_boundaries [0, 3, 6]
      ["O", "H", "H", "O", "H", "H", "O", "H", "H"] (by decide) (by norm_num [List.chain'_cons])
    exact ⟨s, h1, h2, h3.trans (by decide)⟩
  · obtain ⟨s, h1, h2, h3⟩ := from_arrays_boundaries [0, 2, 5]
      ["a", "b", "c", "d", "e", "f", "g"] (by decide) (by norm_num [List.chain'_cons])
    exact ⟨s, h1, h2, h3.trans (by decide)⟩

/-- Claim C5: for a system built by `_from_entities` from a molecule list,
`get_molecule(i)` reconstructs a molecule whose attribute arrays and
`molecule_name` are element-wise equal to the `i`-th molecule passed in
(each molecule's own arrays being aligned with its atom count). -/
theorem from_entities_roundtrip (ms : List MoleculeE) (i : Nat) (hi : i < ms.length)
    (hwf : ∀ m ∈ ms, molAligned m) :
    (getMolecule (fromEntities ms) i).r_array = (ms.get ⟨i, hi⟩).r_array ∧
    (getMolecule (fromEntities ms) i).type_array = (ms.get ⟨i, hi⟩).type_array ∧
    (getMolecule (fromEntities ms) i).charge_array = (ms.get ⟨i, hi⟩).charge_array ∧
    (getMolecule (fromEntities ms) i).molecule_name = (ms.get ⟨i, hi⟩).molecule_name := by
  have hr := selectByMap_runs_flatten (fun m => m.r_array) (fun m => m.n_atoms) ms 0 i
    (fun x hx => (hwf x hx).1) hi
  have ht := selectByMap_runs_flatten (fun m => m.type_array) (fun m => m.n_atoms) ms 0 i
    (fun x hx => (hwf x hx).2.1) hi
  have hc := selectByMap_runs_flatten (fun m => m.charge_array) (fun m => m.n_atoms) ms 0 i
    (fun x hx => (hwf x hx).2.2) hi
  simp only [Nat.zero_add] at hr ht hc
  exact ⟨hr, ht, hc, getD_map_of_lt (fun m : MoleculeE => m.molecule_name) "" ms i hi⟩

/-- Witness for C5: the second molecule of the two-molecule demo system is
reconstructed exactly. -/
theorem from_entities_roundtrip_witness :
    (getMolecule (fromEntities [molW1, molW2]) 1).r_array = molW2.r_array ∧
    (getMolecule (fromEntities [molW1, molW2]) 1).type_array = molW2.type_array ∧
    (getMolecule (fromEntities [molW1, molW2]) 1).charge_array = molW2.charge_array ∧
    (getMolecule (fromEntities [molW1, molW2]) 1).molecule_name = molW2.molecule_name :=
  from_entities_roundtrip [molW1, molW2] 1 (by decide) (by decide)

/-- Claim C1 (amended): the merge size-and-concatenation law holds provided
both systems are well-formed with at least one molecule each (and every
molecule owning at least one atom); a zero-molecule operand makes
`merge_systems` fail instead (see the counterexample), because its derived
`mol_indices` / `mol_n_atoms` are `[0]` rather than empty, so the written
boundary bookkeeping has one entry too many for the result's molecule count. -/
theorem merge_nobound_concat (ovl : List V3 → List V3 → List Nat)
    (A B : System) (sa sb : List Nat)
    (hA : SysWF A sa) (hB : SysWF B sb) (hAm : 1 ≤ A.n_mol) (hBm : 1 ≤ B.n_mol) :
    ∃ R, mergeSystems false ovl A B = .ok R ∧
      R.n_mol = A.n_mol + B.n_mol ∧ R.n_atoms = A.n_atoms + B.n_atoms ∧
      R.r_array = A.r_array ++ B.r_array ∧
      R.type_array = A.type_array ++ B.type_array ∧
      R.charge_array = A.charge_array ++ B.charge_array ∧
      R.molecule_name = A.molecule_name ++ B.molecule_name := by
  obtain ⟨⟨har, hat, hac, ham⟩, hmap, hlen, _, hpos⟩ := hA
  obtain ⟨⟨hbr, hbt, hbc, hbm⟩, hbmap, hblen, _, hbpos⟩ := hB
  obtain ⟨s0, sa', rfl⟩ : ∃ s0 sa', sa = s0 :: sa' := by
    cases sa with
    | nil => rw [← hlen] at hAm; simp at hAm
    | cons a b => exact ⟨a, b, rfl⟩
  obtain ⟨t0, sb', rfl⟩ : ∃ t0 sb', sb = t0 :: sb' := by
    cases sb with
    | nil => rw [← hblen] at hBm; simp at hBm
    | cons a b => exact ⟨a, b, rfl⟩
  obtain ⟨hMIA, hMNA⟩ := wf_boundaries hmap hpos
  obtain ⟨_, hMNB⟩ := wf_boundaries hbmap hbpos
  obtain ⟨v1, hv1⟩ : ∃ v, (molIndices A.map).getLast? = some v := by
    cases hgl : (molIndices A.map).getLast? with
    | none =>
      rw [List.getLast?_eq_none_iff, hMIA] at hgl
      exact absurd hgl (by simp [offsets])
    | some v => exact ⟨v, rfl⟩
  obtain ⟨v2, hv2⟩ : ∃ v, (molNAtoms A.map).getLast? = some v := by
    cases hgl : (molNAtoms A.map).getLast? with
    | none =>
      rw [List.getLast?_eq_none_iff, hMNA] at hgl
      exact absurd hgl (by simp)
    | some v => exact ⟨v, rfl⟩
  have hSZ : (molNAtoms A.map ++ molNAtoms B.map).length = A.n_mol + B.n_mol := by
    rw [hMNA, hMNB]
    simp only [List.length_append, List.length_map]
    rw [← hlen, ← hblen]
  refine ⟨{ System.empty (A.n_mol + B.n_mol) (A.n_atoms + B.n_atoms) with
            r_array := A.r_array ++ B.r_array
          , type_array := A.type_array ++ B.type_array
          , charge_array := A.charge_array ++ B.charge_array
          , molecule_name := A.molecule_name ++ B.molecule_name
          , map := runs 0 (molNAtoms A.map ++ molNAtoms B.map) },
    ?_, rfl, rfl, rfl, rfl, rfl, rfl⟩
  show mergeTail A B = _
  rw [mergeTail]
  dsimp only
  split
  · rw [hv1, hv2]
  · next hneg =>
    exact absurd ⟨by simp [System.empty, har, hbr], by simp [System.empty, hat, hbt],
      by simp [System.empty, hac, hbc], by simp [System.empty, ham, hbm]⟩ hneg

/-- Counterexample for C1 as stated: with `bounding=False` the law fails when
an operand has zero molecules (either side), or when a molecule owns zero
atoms — the merge raises a shape error instead of returning the concatenated
system, because the derived boundary arrays do not have one entry per
molecule in those cases. -/
theorem merge_nobound_counterexample :
    mergeSystems false (fun _ _ => []) emptySys demoB = .error .shapeMismatch ∧
    mergeSystems false (fun _ _ => []) demoA emptySys = .error .shapeMismatch ∧
    mergeSystems false (fun _ _ => []) degenSys demoB = .error .shapeMismatch := by
  decide

/-- Witness for C1 (amended) at the two demo systems: the merge succeeds and
concatenates every declared attribute. -/
theorem merge_nobound_concat_witness :
    ∃ R, mergeSystems false (fun _ _ => []) demoA demoB = .ok R ∧
      R.n_mol = demoA.n_mol + demoB.n_mol ∧ R.n_atoms = demoA.n_atoms + demoB.n_atoms ∧
      R.r_array = demoA.r_array ++ demoB.r_array ∧
      R.type_array = demoA.type_array ++ demoB.type_array ∧
      R.charge_array = demoA.charge_array ++ demoB.charge_array ∧
      R.molecule_name = demoA.molecule_name ++ demoB.molecule_name :=
  merge_nobound_concat (fun _ _ => []) demoA demoB [3, 3] [3]
    (by decide) (by decide) (by decide) (by decide)

/-- Claim C8 (amended): `merge_systems` with a zero-molecule `sysa` still does
not return a merged system, but the failure is not an out-of-range indexing of
`mol_indices[-1]` / `mol_n_atoms[-1]`: both derived arrays are `[0]` for an
empty owning map (the first-difference derivation inserts a sentinel change at
position 0), so the offset computation succeeds with offset `0`, and the
operation instead fails writing the boundary bookkeeping, whose `1 + b`
entries mismatch the result's `0 + b` molecule slots. -/
theorem merge_empty_sysa_shape_error (ovl : List V3 → List V3 → List Nat)
    (B : System) (sb : List Nat) (hB : SysWF B sb) (hBm : 1 ≤ B.n_mol) :
    (molIndices emptySys.map).getLast? = some 0 ∧
    (molNAtoms emptySys.map).getLast? = some 0 ∧
    mergeSystems false ovl emptySys B = .error .shapeMismatch := by
  obtain ⟨⟨hbr, hbt, hbc, hbm⟩, hbmap, hblen, _, hbpos⟩ := hB
  obtain ⟨t0, sb', rfl⟩ : ∃ t0 sb', sb = t0 :: sb' := by
    cases sb with
    | nil => rw [← hblen] at hBm; simp at hBm
    | cons a b => exact ⟨a, b, rfl⟩
  obtain ⟨_, hMNB⟩ := wf_boundaries hbmap hbpos
  have hne : ¬((molNAtoms emptySys.map ++ molNAtoms B.map).length =
      emptySys.n_mol + B.n_mol) := by
    rw [show molNAtoms emptySys.map = [0] from by decide, hMNB,
      show emptySys.n_mol = 0 from rfl]
    simp only [List.length_append, List.length_cons, List.length_map]
    rw [← hblen]
    simp only [List.length_cons]
    omega
  refine ⟨by decide, by decide, ?_⟩
  show mergeTail emptySys B = _
  rw [mergeTail]
  dsimp only
  split
  · rw [show (molIndices emptySys.map).getLast? = some 0 from by decide,
      show (molNAtoms emptySys.map).getLast? = some 0 from by decide]
  · next hneg =>
    exact absurd ⟨by simp [emptySys, systemInit, System.empty, hbr],
      by simp [emptySys, systemInit, System.empty, hbt],
      by simp [emptySys, systemInit, System.empty, hbc],
      by simp [emptySys, systemInit, System.empty, hbm]⟩ hneg

/-- Counterexample for C8 as stated: for the concrete zero-molecule `sysa`,
`mol_indices` is `[0]` (not empty), its last element exists, and the merge
fails with a shape error — not with an out-of-range indexing error. -/
theorem merge_empty_sysa_counterexample :
    molIndices emptySys.map = [0] ∧
    (molIndices emptySys.map).getLast? = some 0 ∧
    mergeSystems false (fun _ _ => []) emptySys demoC = .error .shapeMismatch ∧
    mergeSystems false (fun _ _ => []) emptySys demoC ≠ .error .indexOutOfRange := by
  decide

/-- Witness for C8 (amended) at a concrete well-formed one-molecule system. -/
theorem merge_empty_sysa_shape_error_witness :
    (molIndices emptySys.map).getLast? = some 0 ∧
    (molNAtoms emptySys.map).getLast? = some 0 ∧
    mergeSystems false (fun _ _ => []) emptySys demoB = .error .shapeMismatch :=
  merge_empty_sysa_shape_error (fun _ _ => []) demoB [3] (by decide) (by decide)

/-- Claim C6: dimension consistency.  For every entity and every completed
construction, setter assignment or structural operation embedded here, every
Attribute/Field indexed by a dimension has leading-axis length exactly that
dimension's size — in particular the length of `r_array` always equals the
`atom` dimension.  (Operations whose inputs are themselves consistent, and
whose fallible steps completed, yield consistent outputs.) -/
theorem dimension_consistency :
    (∀ nm na, attrsAligned (System.empty nm na)) ∧
    (∀ ms : Option (List MoleculeE), (∀ m ∈ ms.getD [], molAligned m) →
      attrsAligned (systemInit ms)) ∧
    (∀ k s, fromArrays k = .ok s → attrsAligned s) ∧
    (∀ (b : Bool) ovl a c s, mergeSystems b ovl a c = .ok s → attrsAligned s) ∧
    (∀ s sel, attrsAligned s → s.map.length = s.n_atoms →
      attrsAligned (subDimensionMol s sel)) ∧
    (∀ s v s', setRArray s v = .ok s' → attrsAligned s → attrsAligned s') ∧
    (∀ s v s', setTypeArray s v = .ok s' → attrsAligned s → attrsAligned s') ∧
    (∀ s v s', setChargeArray s v = .ok s' → attrsAligned s → attrsAligned s') ∧
    (∀ s v s', setMoleculeName s v = .ok s' → attrsAligned s → attrsAligned s') ∧
    (∀ atoms bonds, (∀ a ∈ atoms, atomAligned a) →
      molAligned (moleculeFromAtoms atoms bonds)) ∧
    (∀ ty r a, atomInit ty r = .ok a → atomAligned a) := by
  refine ⟨empty_aligned, ?_, ?_, ?_, ?_,
    fun _ _ _ h ha => setRArray_aligned h ha,
    fun _ _ _ h ha => setTypeArray_aligned h ha,
    fun _ _ _ h ha => setChargeArray_aligned h ha,
    fun _ _ _ h ha => setMoleculeName_aligned h ha,
    ?_, ?_⟩
  · -- systemInit
    intro ms h
    cases ms with
    | none => exact ⟨rfl, rfl, rfl, rfl⟩
    | some l =>
      cases l with
      | nil => exact ⟨rfl, rfl, rfl, rfl⟩
      | cons m rest =>
        show attrsAligned (fromEntities (m :: rest))
        exact fromEntities_aligned _ (by simpa using h)
  · -- fromArrays
    intro k s h
    cases hm : k.mol_indices with
    | none => rw [fromArrays, hm] at h; cases h
    | some mi =>
      cases ht : k.type_array with
      | none => rw [fromArrays, hm, ht] at h; cases h
      | some ts =>
        rw [fromArrays, hm, ht] at h
        dsimp only at h
        rcases except_bind_ok h with ⟨t1, h1, h2⟩
        rcases except_bind_ok h2 with ⟨t2, h3, h4⟩
        rcases except_bind_ok h4 with ⟨t3, h5, h6⟩
        have ha1 : attrsAligned t1 :=
          setTypeArray_aligned h1 (empty_aligned mi.length ts.length)
        exact optSetN_aligned h6 (optSetC_aligned h5 (optSetR_aligned h3 ha1))
  · -- merge
    intro b ovl a c s h
    cases b with
    | true =>
      rw [mergeSystems] at h
      dsimp only at h
      rw [subsystemFromAtoms_none] at h
      cases h
    | false =>
      replace h : mergeTail a c = .ok s := h
      rw [mergeTail] at h
      dsimp only at h
      split at h
      · next hcond =>
        split at h
        · split at h
          · next hsz =>
            obtain rfl : _ = s := (Except.ok.injEq _ _).mp h
            obtain ⟨h1, h2, h3, h4⟩ := hcond
            simp only [System.empty] at h1 h2 h3 h4 ⊢
            exact ⟨h1, h2, h3, h4⟩
          · cases h
        · cases h
      · cases h
  · -- subDimensionMol
    intro s sel ha hm
    have hlen : ∀ {α : Type} (xs : List α), xs.length = s.n_atoms →
        ∀ i : Nat, (selectByMap s.map xs (i : Int)).length = selCount s.map i := by
      intro α xs hx i
      exact selectByMap_length _ _ _ (by rw [hm, hx])
    have key : ∀ chosen : List Nat,
        ((chosen.map (fun i : Nat => selectByMap s.map s.r_array (i : Int))).flatten).length =
          (chosen.map (selCount s.map)).sum ∧
        ((chosen.map (fun i : Nat => selectByMap s.map s.type_array (i : Int))).flatten).length =
          (chosen.map (selCount s.map)).sum ∧
        ((chosen.map (fun i : Nat => selectByMap s.map s.charge_array (i : Int))).flatten).length =
          (chosen.map (selCount s.map)).sum := fun chosen =>
      ⟨flatten_map_length _ (selCount s.map) chosen (fun i _ => hlen s.r_array ha.1 i),
       flatten_map_length _ (selCount s.map) chosen (fun i _ => hlen s.type_array ha.2.1 i),
       flatten_map_length _ (selCount s.map) chosen (fun i _ => hlen s.charge_array ha.2.2.1 i)⟩
    cases sel with
    | idx l =>
      exact ⟨(key l).1, (key l).2.1, (key l).2.2, by simp [subDimensionMol]⟩
    | mask mk =>
      exact ⟨(key (trueIdxs mk)).1, (key (trueIdxs mk)).2.1, (key (trueIdxs mk)).2.2,
        by simp [subDimensionMol]⟩
  · -- moleculeFromAtoms
    intro atoms bonds h
    refine ⟨?_, ?_, ?_⟩
    · show ((atoms.map (fun a => a.r_array)).flatten).length = (atoms.map (fun a => a.n_atom)).sum
      exact flatten_map_length _ _ atoms (fun x hx => (h x hx).1)
    · show ((atoms.map (fun a => a.type_array)).flatten).length = (atoms.map (fun a => a.n_atom)).sum
      exact flatten_map_length _ _ atoms (fun x hx => (h x hx).2.1)
    · show ((atoms.map (fun a => a.charge_array)).flatten).length = (atoms.map (fun a => a.n_atom)).sum
      exact flatten_map_length _ _ atoms (fun x hx => (h x hx).2.2)
  · -- atomInit
    intro ty r a h
    rw [atomInit] at h
    split at h
    · next hc =>
      obtain rfl : _ = a := (Except.ok.injEq _ _).mp h
      exact ⟨rfl, hc, by simp⟩
    · cases h

/-- Witness for C6: dimension consistency evaluated on concrete entities —
a system assembled from two molecules, a molecule sub-selection of the demo
system, and a molecule assembled from one atom. -/
theorem dimension_consistency_witness :
    attrsAligned (systemInit (some [molW1, molW2])) ∧
    attrsAligned (subDimensionMol demoA (Sel.idx [1])) ∧
    molAligned (moleculeFromAtoms [{ r_array := [(0, 0, 0)], type_array := ["H"]
                                   , charge_array := [0], n_atom := 1 }] []) :=
  ⟨dimension_consistency.2.1 (some [molW1, molW2]) (by decide),
   dimension_consistency.2.2.2.2.1 demoA (Sel.idx [1]) (by decide) (by decide),
   dimension_consistency.2.2.2.2.2.2.2.2.2.1
     [{ r_array := [(0, 0, 0)], type_array := ["H"], charge_array := [0], n_atom := 1 }]
     [] (by decide)⟩

end Chemlab
